import Mathlib

/-!
Verification of the session-log analysis scripts
(`analysis/scripts/{summarize_session, analyze_stuck_points, analyze_flow,
analyze_efficiency}.py`).

The scripts consume one JSON record per line. We embed:
  * a `Json` value type and an executable decoder `Json.parse` modelling
    `json.loads` on the JSON fragment the transcripts use (objects, arrays,
    strings with the common escapes, integers, booleans, null); floats and
    `\u` escapes are outside the fragment and simply fail to decode, which
    is conservative: the model never succeeds where `json.loads` fails on
    well-formed transcript lines;
  * the per-script line decoders `parse_event`;
  * the detectors the claims are about, one Lean definition per Python
    function, translated statement by statement.

Python `dict.get` is total only on dicts; the scripts crash (AttributeError)
on records whose intermediate values are not dicts/lists where dicts/lists
are expected.  The model makes those accesses yield "absent" instead; every
claim below is settled on transcripts where the two agree (the scripts do
not get past such a line at all, so no detector output exists for them).
-/

mutual

inductive Json where
  | null
  | bool (b : Bool)
  | num (n : Int)
  | str (s : String)
  | arr (elems : JsonList)
  | obj (fields : JsonFields)
deriving DecidableEq

inductive JsonList where
  | nil
  | cons (hd : Json) (tl : JsonList)
deriving DecidableEq

inductive JsonFields where
  | nil
  | cons (key : String) (val : Json) (tl : JsonFields)
deriving DecidableEq

end

def JsonList.ofList : List Json → JsonList
  | [] => .nil
  | j :: js => .cons j (JsonList.ofList js)

def JsonList.toList : JsonList → List Json
  | .nil => []
  | .cons j js => j :: JsonList.toList js

def JsonFields.ofList : List (String × Json) → JsonFields
  | [] => .nil
  | (k, v) :: kvs => .cons k v (JsonFields.ofList kvs)

/-- Last-occurrence lookup: `json.loads` builds a Python dict in which a
repeated key keeps its last value, so lookup must return the last binding. -/
def JsonFields.lookupLast (k : String) : JsonFields → Option Json
  | .nil => none
  | .cons k' v rest =>
    match JsonFields.lookupLast k rest with
    | some v' => some v'
    | none => if k' = k then some v else none

/-- Lookup `d.get(k)` for a decoded record: `none` when the key is absent.
On a non-dict value the source raises AttributeError; modelled as absent. -/
def Json.lookup (j : Json) (k : String) : Option Json :=
  match j with
  | .obj fields => fields.lookupLast k
  | _ => none

/-- Lookup with default, `d.get(k, default)`. -/
def Json.getD (j : Json) (k : String) (d : Json) : Json :=
  (j.lookup k).getD d

/-- Python truthiness of a decoded JSON value (`if x:`). -/
def Json.isTruthy : Json → Bool
  | .null => false
  | .bool b => b
  | .num n => n ≠ 0
  | .str s => s ≠ ""
  | .arr l => l ≠ .nil
  | .obj f => f ≠ .nil

/-- Truthiness of `d.get(k)` (missing key gives Python `None`, falsy). -/
def Json.truthyField (j : Json) (k : String) : Bool :=
  match j.lookup k with
  | none => false
  | some v => v.isTruthy

/-- Test `e.get('type') == t` — true only when the discriminant is that string. -/
def Json.isType (j : Json) (t : String) : Bool :=
  match j.lookup "type" with
  | some (.str s) => s = t
  | _ => false

/-- Blocks `message.get('content', [])` restricted to list values: the content
blocks of an event.  `summarize_session` / `analyze_stuck_points` guard with
`isinstance(content, list)` (non-list gives no blocks); `analyze_flow`
iterates unguarded and would raise on a non-list, which the model folds into
the same "no blocks" outcome (see the header note). -/
def Json.contentBlocks (e : Json) : List Json :=
  match (e.getD "message" (.obj .nil)).getD "content" (.arr .nil) with
  | .arr bs => bs.toList
  | _ => []

/-- Python whitespace for `str.strip()` (ASCII part). -/
def pyWs (c : Char) : Bool :=
  c = ' ' || c = '\t' || c = '\n' || c = '\r' || c = '\x0b' || c = '\x0c'

def dropWhileWs : List Char → List Char
  | [] => []
  | c :: cs => if pyWs c then dropWhileWs cs else c :: cs

/-- Python `line.strip()` (the transcripts are ASCII). -/
def pyStrip (s : String) : String :=
  String.mk ((dropWhileWs (dropWhileWs s.data.reverse).reverse))

/-- Python `s[:-1]` — drop the final character. -/
def pyDropLast (s : String) : String :=
  String.mk s.data.dropLast

/-- Python `s[:n]` for `n ≥ 0`. -/
def pyTake (n : Nat) (s : String) : String :=
  String.mk (s.data.take n)

/-- Python `s.lower()` (ASCII). -/
def pyLower (s : String) : String :=
  String.mk (s.data.map Char.toLower)

/-- Containment `needle in haystack` on char lists. -/
def subListOf (needle : List Char) : List Char → Bool
  | [] => needle.isEmpty
  | c :: rest => needle.isPrefixOf (c :: rest) || subListOf needle rest

/-- Python `needle in haystack` for strings. -/
def strContains (haystack needle : String) : Bool :=
  subListOf needle.data haystack.data

/-- Python `s.endswith(suffix)`. -/
def strEndsWith (s suffix : String) : Bool :=
  suffix.data.isSuffixOf s.data

/-! ## JSON text decoder (models `json.loads` on the transcript fragment) -/

/-- Skip JSON whitespace. -/
def skipWs : List Char → List Char
  | [] => []
  | c :: cs => if c = ' ' ∨ c = '\t' ∨ c = '\n' ∨ c = '\r' then skipWs cs else c :: cs

/-- One-character string escapes (`\uXXXX` is outside the fragment). -/
def escChar (c : Char) : Option Char :=
  if c = 'n' then some '\n'
  else if c = 't' then some '\t'
  else if c = 'r' then some '\r'
  else if c = 'b' then some (Char.ofNat 0x08)
  else if c = 'f' then some (Char.ofNat 0x0c)
  else if c = '"' ∨ c = '/' ∨ c = '\\' then some c
  else none

/-- Scan a string body after the opening quote; returns content and rest. -/
def scanStr : List Char → Option (List Char × List Char)
  | [] => none
  | c :: cs =>
    if c = '"' then some ([], cs)
    else if c = '\\' then
      match cs with
      | [] => none
      | e :: cs' =>
        match escChar e with
        | some d => (scanStr cs').map (fun p => (d :: p.1, p.2))
        | none => none
    else (scanStr cs).map (fun p => (c :: p.1, p.2))

/-- Longest digit prefix. -/
def takeDigits : List Char → (List Char × List Char)
  | [] => ([], [])
  | c :: cs =>
    if c.isDigit then
      let p := takeDigits cs
      (c :: p.1, p.2)
    else ([], c :: cs)

def digitsVal (l : List Char) : Nat :=
  l.foldl (fun a c => a * 10 + (c.toNat - 48)) 0

mutual

/-- Recursive-descent value parser; `fuel` bounds nesting and is chosen
ample by `Json.parse`, so it never runs out on an input that decodes. -/
def parseVal : Nat → List Char → Option (Json × List Char)
  | 0, _ => none
  | fuel + 1, cs =>
    match skipWs cs with
    | [] => none
    | c :: rest =>
      if c = '"' then
        (scanStr rest).map (fun p => (Json.str (String.mk p.1), p.2))
      else if "null".data.isPrefixOf (c :: rest) then
        some (Json.null, (c :: rest).drop 4)
      else if "true".data.isPrefixOf (c :: rest) then
        some (Json.bool true, (c :: rest).drop 4)
      else if "false".data.isPrefixOf (c :: rest) then
        some (Json.bool false, (c :: rest).drop 5)
      else if c = '-' then
        match takeDigits rest with
        | ([], _) => none
        | (ds, rest') => some (Json.num (-(digitsVal ds : Int)), rest')
      else if c.isDigit then
        match takeDigits (c :: rest) with
        | (ds, rest') => some (Json.num (digitsVal ds : Int), rest')
      else if c = '\x7b' then
        match skipWs rest with
        | '\x7d' :: rest' => some (Json.obj .nil, rest')
        | other => (parseFields fuel other).map (fun p => (Json.obj p.1, p.2))
      else if c = '[' then
        match skipWs rest with
        | ']' :: rest' => some (Json.arr .nil, rest')
        | other => (parseItems fuel other).map (fun p => (Json.arr p.1, p.2))
      else none

/-- Array items, positioned at the first item. -/
def parseItems : Nat → List Char → Option (JsonList × List Char)
  | 0, _ => none
  | fuel + 1, cs =>
    match parseVal fuel cs with
    | none => none
    | some (v, rest) =>
      match skipWs rest with
      | ',' :: rest' =>
        (parseItems fuel rest').map (fun p => (JsonList.cons v p.1, p.2))
      | ']' :: rest' => some (JsonList.cons v .nil, rest')
      | _ => none

/-- Object members, positioned at the first key. -/
def parseFields : Nat → List Char → Option (JsonFields × List Char)
  | 0, _ => none
  | fuel + 1, cs =>
    match skipWs cs with
    | '"' :: rest =>
      match scanStr rest with
      | none => none
      | some (k, rest1) =>
        match skipWs rest1 with
        | ':' :: rest2 =>
          match parseVal fuel rest2 with
          | none => none
          | some (v, rest3) =>
            match skipWs rest3 with
            | ',' :: rest4 =>
              (parseFields fuel rest4).map
                (fun p => (JsonFields.cons (String.mk k) v p.1, p.2))
            | '\x7d' :: rest4 =>
              some (JsonFields.cons (String.mk k) v .nil, rest4)
            | _ => none
        | _ => none
    | _ => none

end

/-- Decode `json.loads` on a line: parse one value, then require only whitespace
after it (`json.loads` rejects trailing data). -/
def Json.parse (s : String) : Option Json :=
  match parseVal (2 * s.length + 4) s.data with
  | some (j, rest) => if skipWs rest = [] then some j else none
  | none => none

/-! ## Shared derived records -/

/-- One tool invocation as extracted by `find_tool_uses`:
`{'name': block.get('name'), 'input': block.get('input', {}), 'id': block.get('id')}`. -/
structure ToolUse where
  name : Option Json
  input : Json
  id : Option Json
deriving DecidableEq

/-- A matched tool result as returned by `find_tool_result`:
`{'content': block.get('content', ''), 'is_error': block.get('is_error', False)}`. -/
structure ToolResultR where
  content : Json
  is_error : Json
deriving DecidableEq

namespace StuckPoints

/-- Repair loop of `analyze_stuck_points.parse_event`: strip at most 3 trailing
closing braces, retrying a decode after each strip. -/
def stripRetry : Nat → String → Option Json
  | 0, _ => none
  | budget + 1, line =>
    if strEndsWith line "\x7d" then
      let line' := pyDropLast line
      match Json.parse line' with
      | some e => some e
      | none => stripRetry budget line'
    else stripRetry budget line

/-- Decoder `analyze_stuck_points.parse_event` (lines 16-32): strip whitespace, drop
empty lines, strict decode, then the bounded brace-strip repair loop. -/
def parse_event (line : String) : Option Json :=
  let l := pyStrip line
  if l = "" then none
  else
    match Json.parse l with
    | some e => some e
    | none => stripRetry 3 l

/-- Loader `extract_events` (lines 35-43): decoded events of the non-dropped lines,
in input order. -/
def extract_events : List String → List Json
  | [] => []
  | l :: ls =>
    match parse_event l with
    | some e => e :: extract_events ls
    | none => extract_events ls

/-- Extractor `find_tool_uses` (lines 46-63). -/
def find_tool_uses (e : Json) : List ToolUse :=
  if e.isType "assistant" then
    e.contentBlocks.filterMap (fun b =>
      if b.isType "tool_use" then
        some ⟨b.lookup "name", b.getD "input" (.obj .nil), b.lookup "id"⟩
      else none)
  else []

/-- The inner scan of `find_tool_result` over one event: the first
`tool_result` block of a `user` event whose `tool_use_id` equals the
searched id (both sides may be Python `None` = `none`). -/
def resultFromEvent (tid : Option Json) (e : Json) : Option ToolResultR :=
  if e.isType "user" then
    e.contentBlocks.findSome? (fun b =>
      if b.isType "tool_result" = true ∧ b.lookup "tool_use_id" = tid then
        some ⟨b.getD "content" (.str ""), b.getD "is_error" (.bool false)⟩
      else none)
  else none

/-- The index loop of `find_tool_result`: scan positions `i, i+1, ...` while
fuel lasts and the index is in range. -/
def ftrGo (events : List Json) (tid : Option Json) : Nat → Nat → Option ToolResultR
  | _, 0 => none
  | i, fuel + 1 =>
    match events[i]? with
    | none => none
    | some e =>
      match resultFromEvent tid e with
      | some r => some r
      | none => ftrGo events tid (i + 1) fuel

/-- Lookup `find_tool_result` (lines 66-81): `for i in range(start_idx,
min(start_idx + 10, len(events)))`. -/
def find_tool_result (events : List Json) (tid : Option Json) (start : Nat) :
    Option ToolResultR :=
  ftrGo events tid start 10

/-- The Bash invocations of one event
(`[t for t in tools if t['name'] == 'Bash']`). -/
def bashToolsOf (e : Json) : List ToolUse :=
  (find_tool_uses e).filter (fun t => t.name = some (.str "Bash"))

/-- One `current_seq` entry of `analyze_bash_sequences`
(`{'index': i, 'command': tool['input'].get('command', ''), 'result': ...}`). -/
structure BashEntry where
  index : Nat
  command : Json
  result : Option ToolResultR
deriving DecidableEq

/-- Entries contributed by one event. -/
def bashEntriesOf (events : List Json) (i : Nat) (e : Json) : List BashEntry :=
  (bashToolsOf e).map (fun t =>
    ⟨i, t.input.getD "command" (.str ""), find_tool_result events t.id i⟩)

/-- The loop of `analyze_bash_sequences` (lines 89-104): first component is
the list of recorded sequences, second the open `current_seq` at the end. -/
def bashScan (events : List Json) :
    Nat → List BashEntry → List Json → List (List BashEntry) × List BashEntry
  | _, cur, [] => ([], cur)
  | i, cur, e :: es =>
    if (bashToolsOf e).isEmpty then
      let r := bashScan events (i + 1) [] es
      ((if 5 ≤ cur.length then [cur] else []) ++ r.1, r.2)
    else
      bashScan events (i + 1) (cur ++ bashEntriesOf events i e) es

/-- Detector `analyze_bash_sequences` (lines 84-109), including the final flush
(lines 106-107). -/
def analyze_bash_sequences (events : List Json) : List (List BashEntry) :=
  let r := bashScan events 0 [] events
  r.1 ++ (if 5 ≤ r.2.length then [r.2] else [])

/-- Phrase list `error_patterns` of `find_environment_issues` (lines 132-141). -/
def error_patterns : List String :=
  ["command not found", "no module named", "not found", "permission denied",
   "cannot find", "missing", "failed to", "error:"]

/-- One issue record (`{'index', 'command', 'type', 'detail'}`). -/
structure EnvIssue where
  index : Nat
  command : String
  type : String
  detail : String
deriving DecidableEq

/-- Slice `cmd[:80]` — the source slices the command, which raises on a non-string
command; such transcripts never reach an issue record, modelled as "". -/
def cmdSlice (cmd : Json) : String :=
  match cmd with
  | .str s => pyTake 80 s
  | _ => ""

/-- The classification of one matched Bash result in
`find_environment_issues` (lines 150-172): missing result is skipped,
non-string content is skipped before the `is_error` test, a truthy
`is_error` gives kind `error`, otherwise a phrase hit in the lowercased
content gives kind `warning`. -/
def classifyBashResult (i : Nat) (cmd : Json) (r : Option ToolResultR) :
    Option EnvIssue :=
  match r with
  | none => none
  | some res =>
    match res.content with
    | .str s =>
      if res.is_error.isTruthy then
        some ⟨i, cmdSlice cmd, "error", pyTake 200 s⟩
      else if error_patterns.any (fun p => strContains (pyLower s) p) then
        some ⟨i, cmdSlice cmd, "warning", pyTake 200 s⟩
      else none
    | _ => none

/-- The event loop of `find_environment_issues`. -/
def envIssuesGo (events : List Json) : Nat → List Json → List EnvIssue
  | _, [] => []
  | i, e :: es =>
    ((find_tool_uses e).filterMap (fun t =>
      if t.name = some (.str "Bash") then
        classifyBashResult i (t.input.getD "command" (.str ""))
          (find_tool_result events t.id i)
      else none)) ++ envIssuesGo events (i + 1) es

/-- Scanner `find_environment_issues` (lines 129-174). -/
def find_environment_issues (events : List Json) : List EnvIssue :=
  envIssuesGo events 0 events

end StuckPoints

namespace Summarize

/-- Decoder `summarize_session.parse_event` (lines 12-23): strip, drop empties, then
the narrow `loop_meta` repair — a line that ends in two closing braces and
contains `"loop_meta"` has exactly one trailing character removed — followed
by a single strict decode attempt. -/
def parse_event (line : String) : Option Json :=
  let l := pyStrip line
  if l = "" then none
  else
    let l2 :=
      if strEndsWith l "\x7d\x7d" && strContains l "\"loop_meta\"" then
        pyDropLast l
      else l
    Json.parse l2

/-- One `tool_events` entry of `summarize_session` (lines 93-98):
`{'index': idx, 'name': ..., 'id': ..., 'input': ...}` where `idx` is the
raw line number of the enclosing `enumerate(lines)` loop. -/
structure SToolEvent where
  index : Nat
  name : Option Json
  id : Option Json
  input : Json
deriving DecidableEq

/-- The `tool_use` entries contributed by the event decoded from one line:
`loop_meta` and `system` lines are consumed by earlier `continue`s, only
`assistant` content blocks of type `tool_use` contribute. -/
def toolEventsOfLine (idx : Nat) (e : Json) : List SToolEvent :=
  if e.isType "loop_meta" then []
  else if e.isType "system" then []
  else if e.isType "assistant" then
    e.contentBlocks.filterMap (fun b =>
      if b.isType "tool_use" then
        some ⟨idx, b.lookup "name", b.lookup "id", b.getD "input" (.obj .nil)⟩
      else none)
  else []

/-- The `for idx, line in enumerate(lines)` collection loop (lines 52-103)
restricted to the `tool_events` accumulator. -/
def toolEventsGo : Nat → List String → List SToolEvent
  | _, [] => []
  | idx, l :: ls =>
    (match parse_event l with
     | none => []
     | some e => toolEventsOfLine idx e) ++ toolEventsGo (idx + 1) ls

/-- The `tool_events` list built by `summarize_session`. -/
def tool_events (lines : List String) : List SToolEvent :=
  toolEventsGo 0 lines

/-- Loop-detector state of lines 153-156: `consecutive_tool` starts as
Python `None` (also the value of a missing `name`), `consecutive_count = 0`,
`start_index = 0`. -/
structure RunState where
  tool : Option Json
  count : Nat
  start : Nat
  found : List (Option Json × Nat × Nat)
deriving DecidableEq

/-- One iteration of the consecutive-same-tool loop (lines 158-168). -/
def runStep (s : RunState) (te : SToolEvent) : RunState :=
  if te.name = s.tool then
    { s with count := s.count + 1 }
  else
    { tool := te.name, count := 1, start := te.index,
      found := s.found ++ (if 5 ≤ s.count then [(s.tool, s.count, s.start)] else []) }

/-- The potential-loops report of `summarize_session` (lines 152-172),
including the end-of-stream flush (lines 170-172): each finding is
`(tool_name, run_length, start_index)`. -/
def detect_loops (tes : List SToolEvent) : List (Option Json × Nat × Nat) :=
  let s := tes.foldl runStep ⟨none, 0, 0, []⟩
  s.found ++ (if 5 ≤ s.count then [(s.tool, s.count, s.start)] else [])

end Summarize

namespace Flow

/-- Decoder `analyze_flow.parse_event` (lines 7-16): textually the same decoder as
`summarize_session.parse_event`, with a bare `except`. -/
def parse_event (line : String) : Option Json :=
  let l := pyStrip line
  if l = "" then none
  else
    let l2 :=
      if strEndsWith l "\x7d\x7d" && strContains l "\"loop_meta\"" then
        pyDropLast l
      else l
    Json.parse l2

/-- The event list `analyze_flow` scans (lines 19-24). -/
def eventsOf (lines : List String) : List Json :=
  lines.filterMap parse_event

/-- A `user` event containing at least one `tool_result` block whose
`is_error` is truthy (lines 63-68). -/
def isUserError (e : Json) : Bool :=
  e.isType "user" &&
    e.contentBlocks.any (fun b =>
      b.isType "tool_result" && b.truthyField "is_error")

/-- The recovery keyword list (line 76). -/
def recovery_keywords : List String :=
  ["fix", "let me", "try", "install", "check"]

/-- The first `text` block whose first 80 characters, lowercased, contain a
recovery keyword; returns that 80-character excerpt
(`text = block.get('text', '')[:80]`, lines 73-79). -/
def firstQualText (e : Json) : Option String :=
  e.contentBlocks.findSome? (fun b =>
    if b.isType "text" then
      let t :=
        pyTake 80
          (match b.getD "text" (.str "") with
           | .str s => s
           | _ => "")
      if recovery_keywords.any (fun w => strContains (pyLower t) w) then some t
      else none
    else none)

/-- Matcher state: `last_error_idx` (`none` = Python `None`) and the
`error_recoveries` accumulator. -/
structure RecState where
  pending : Option Nat
  recs : List (Nat × Nat × String)
deriving DecidableEq

/-- The assistant half of one loop iteration (lines 70-79).  The guard
`if event.get('type') == 'assistant' and last_error_idx:` tests the pending
index for Python truthiness, so a pending index of `0` never fires. -/
def flowAssist (i : Nat) (e : Json) (s1 : RecState) : RecState :=
  if e.isType "assistant" then
    match s1.pending with
    | some k =>
      if k ≠ 0 then
        match firstQualText e with
        | some t => ⟨none, s1.recs ++ [(k, i, t)]⟩
        | none => s1
      else s1
    | none => s1
  else s1

/-- One iteration of the error→recovery loop (lines 62-79): the `user` block
(lines 63-68) sets `last_error_idx`, then the assistant block runs. -/
def flowStep (i : Nat) (e : Json) (s : RecState) : RecState :=
  flowAssist i e (if isUserError e then { s with pending := some i } else s)

/-- The indexed fold of the matcher loop. -/
def flowGo : Nat → RecState → List Json → RecState
  | _, s, [] => s
  | i, s, e :: es => flowGo (i + 1) (flowStep i e s) es

/-- The `error_recoveries` list of `analyze_flow` (lines 59-79). -/
def error_recoveries (events : List Json) : List (Nat × Nat × String) :=
  (flowGo 0 ⟨none, []⟩ events).recs

/-- Python equality as used by `fp in reads`: the set holds hashable
`file_path` values (an unhashable value would have raised at `reads.add`),
so only scalar-to-scalar equality is ever consulted. -/
def scalarEq : Json → Json → Bool
  | .null, .null => true
  | .bool a, .bool b => a = b
  | .num a, .num b => a = b
  | .str a, .str b => a = b
  | _, _ => false

/-- Path `inp.get('file_path', '')` of a tool-use block. -/
def fpOf (b : Json) : Json :=
  (b.getD "input" (.obj .nil)).getD "file_path" (.str "")

/-- Read-before-edit state: the `reads` set (membership-only, modelled as a
list) and the `edits` records `(event_index, file_path, had_read)`. -/
structure RbeState where
  reads : List Json
  edits : List (Nat × Json × Bool)
deriving DecidableEq

/-- One `tool_use` block step of the read-before-edit scan (lines 97-106):
`if name == 'Read': reads.add(fp)` / `elif name == 'Edit': ...`. -/
def rbeBlockStep (i : Nat) (s : RbeState) (b : Json) : RbeState :=
  if b.isType "tool_use" then
    if b.lookup "name" = some (.str "Read") then
      { s with reads := s.reads ++ [fpOf b] }
    else if b.lookup "name" = some (.str "Edit") then
      { s with edits :=
          s.edits ++ [(i, fpOf b, s.reads.any (fun r => scalarEq (fpOf b) r))] }
    else s
  else s

/-- One event of the read-before-edit scan (lines 92-106): only `assistant`
events are scanned, blocks in order. -/
def rbeEventStep (i : Nat) (s : RbeState) (e : Json) : RbeState :=
  if e.isType "assistant" then
    e.contentBlocks.foldl (rbeBlockStep i) s
  else s

/-- The indexed event loop of the read-before-edit scan. -/
def rbeGo : Nat → RbeState → List Json → RbeState
  | _, s, [] => s
  | i, s, e :: es => rbeGo (i + 1) (rbeEventStep i s e) es

/-- The `edits` records of the read-before-edit analysis (lines 87-110). -/
def rbe_edits (events : List Json) : List (Nat × Json × Bool) :=
  (rbeGo 0 ⟨[], []⟩ events).edits

end Flow

namespace Efficiency

/-- Decoder `analyze_efficiency.parse_event` (lines 6-20): textually the same
decoder as `analyze_stuck_points.parse_event`. -/
def parse_event (line : String) : Option Json :=
  StuckPoints.parse_event line

/-- Category table `tool_categories` (lines 31-40), in declaration order; Python dicts
iterate in insertion order, so this list order is the tie-break order. -/
def tool_categories : List (String × List String) :=
  [("orientation", ["bd ready", "bd show", "bd list"]),
   ("claiming", ["bd update"]),
   ("reading", ["Read", "Glob"]),
   ("testing", ["cargo test", "pytest", "npm test", "python -m pytest"]),
   ("editing", ["Edit", "Write"]),
   ("closing", ["bd close"]),
   ("git", ["git "]),
   ("env_setup", ["apt-get", "dnf", "pip", "which", "curl"])]

/-- The first-match-wins classification of one match target (lines 57-64):
for a Bash invocation the target is the command text, otherwise the tool
name; no category pattern matching gives `other`. -/
def classifyTarget (cmd : String) : String :=
  match tool_categories.find? (fun c => c.2.any (fun p => strContains cmd p)) with
  | some c => c.1
  | none => "other"

/-- The match target of one `tool_use` block (lines 53-55):
`cmd = inp.get('command', '') if name == 'Bash' else name`, with
`name = block.get('name', '')`.  A non-string target raises at `p in cmd`
in the source; modelled as `none` (no count recorded). -/
def targetOf (b : Json) : Option String :=
  match b.getD "name" (.str "") with
  | .str n =>
    if n = "Bash" then
      match (b.getD "input" (.obj .nil)).getD "command" (.str "") with
      | .str c => some c
      | _ => none
    else some n
  | _ => none

/-- All category assignments of a transcript, in scan order (lines 45-64). -/
def assignments (events : List Json) : List String :=
  events.flatMap (fun e =>
    if e.isType "assistant" then
      e.contentBlocks.filterMap (fun b =>
        if b.isType "tool_use" then (targetOf b).map classifyTarget else none)
    else [])

/-- The per-category tally: category counts are determined by the
assignment list (`category_counts[cat] += 1`). -/
def categoryCount (events : List Json) (cat : String) : Nat :=
  (assignments events).count cat

end Efficiency

/-! ## Derived spec-side definitions and concrete transcripts used by the theorems -/

/-- A well-formed `loop_meta` line whose JSON text naturally ends in two
consecutive closing braces (its `data` member is an object). -/
def loopMetaLine : String :=
  "\x7b\"type\": \"loop_meta\", \"event\": \"iteration_end\", \"data\": \x7b\"exit_code\": 0\x7d\x7d"

/-- The decode of `loopMetaLine`. -/
def loopMetaEvent : Json :=
  Json.obj (.cons "type" (.str "loop_meta") (.cons "event" (.str "iteration_end")
    (.cons "data" (Json.obj (.cons "exit_code" (.num 0) .nil)) .nil)))

/-- A transcript whose first line is dropped by the decoder. -/
def gapLines : List String :=
  ["not json",
   "\x7b\"type\": \"assistant\", \"message\": \x7b\"content\": [\x7b\"type\": \"tool_use\", \"name\": \"Bash\", \"id\": \"t1\", \"input\": \x7b\"command\": \"ls\"\x7d\x7d]\x7d\x7d"]

/-- Nine filler events followed by a matching `tool_result` at index 9. -/
def jobj (l : List (String × Json)) : Json :=
  Json.obj (JsonFields.ofList l)

def jarr (l : List Json) : Json :=
  Json.arr (JsonList.ofList l)

def sysEvent : Json :=
  jobj [("type", .str "system")]

def resultEventT1 : Json :=
  jobj [("type", .str "user"),
        ("message", jobj [("content", jarr [jobj
          [("type", .str "tool_result"), ("tool_use_id", .str "t1"),
           ("content", .str "ok"), ("is_error", .bool false)]])])]

def horizonEvents : List Json :=
  [sysEvent, sysEvent, sysEvent, sysEvent, sysEvent,
   sysEvent, sysEvent, sysEvent, sysEvent, resultEventT1]

def errorUserEvent : Json :=
  jobj [("type", .str "user"),
        ("message", jobj [("content", jarr [jobj
          [("type", .str "tool_result"), ("is_error", .bool true)]])])]

def assistantTextEvent (t : String) : Json :=
  jobj [("type", .str "assistant"),
        ("message", jobj [("content", jarr [jobj
          [("type", .str "text"), ("text", .str t)]])])]

/-- The overwrite scenario `[Error@1, Error@3, Text("try again")@4]`. -/
def overwriteScenario : List Json :=
  [sysEvent, errorUserEvent, sysEvent, errorUserEvent,
   assistantTextEvent "try again"]

/-- Text whose only recovery keyword sits beyond the first 80 characters. -/
def paddedFixText : String :=
  String.mk (List.replicate 80 'a') ++ " fix it"

def truncationEvents : List Json :=
  [sysEvent, errorUserEvent, assistantTextEvent paddedFixText]

def zeroErrorEvents : List Json :=
  [sysEvent, errorUserEvent, assistantTextEvent "let me fix this"]

def bashToolEvent (i : Nat) : Summarize.SToolEvent :=
  ⟨i, some (.str "Bash"), some (.str "x"), .obj .nil⟩

def bashAssistantEvent : Json :=
  jobj [("type", .str "assistant"),
        ("message", jobj [("content", jarr [jobj
          [("type", .str "tool_use"), ("name", .str "Bash"),
           ("id", .str "b1"), ("input", jobj [("command", .str "ls")])]])])]

def arrErrorResultEvent : Json :=
  jobj [("type", .str "user"),
        ("message", jobj [("content", jarr [jobj
          [("type", .str "tool_result"), ("tool_use_id", .str "b1"),
           ("content", jarr []), ("is_error", .bool true)]])])]

def envCexEvents : List Json :=
  [bashAssistantEvent, arrErrorResultEvent]

/-- The entry list a run of events contributes, one `BashEntry` per Bash
invocation per event, indexed from `i` (results looked up in `events`). -/
def entriesSeq (events : List Json) : Nat → List Json → List StuckPoints.BashEntry
  | _, [] => []
  | i, e :: es => StuckPoints.bashEntriesOf events i e ++ entriesSeq events (i + 1) es

def twoBashEvent (a b : String) : Json :=
  jobj [("type", .str "assistant"),
        ("message", jobj [("content", jarr
          [jobj [("type", .str "tool_use"), ("name", .str "Bash"),
                 ("id", .str a), ("input", jobj [("command", .str a)])],
           jobj [("type", .str "tool_use"), ("name", .str "Bash"),
                 ("id", .str b), ("input", jobj [("command", .str b)])]])])]

/-- Three consecutive events with two Bash invocations each, then a
non-Bash event. -/
def shortRunEvents : List Json :=
  [twoBashEvent "c0" "c1", twoBashEvent "c2" "c3", twoBashEvent "c4" "c5",
   sysEvent]

def oneBashEvent (a : String) : Json :=
  jobj [("type", .str "assistant"),
        ("message", jobj [("content", jarr
          [jobj [("type", .str "tool_use"), ("name", .str "Bash"),
                 ("id", .str a), ("input", jobj [("command", .str a)])]])])]

def fiveBashRun : List Json :=
  [oneBashEvent "k0", oneBashEvent "k1", oneBashEvent "k2", oneBashEvent "k3",
   oneBashEvent "k4"]

/-- An assistant event holding exactly the given content blocks. -/
def assistantOf (bs : List Json) : Json :=
  jobj [("type", .str "assistant"), ("message", jobj [("content", jarr bs)])]

/-- The `file_path` values the `Read` invocations of a prefix put into the
`reads` set, in scan order. -/
def readPaths (events : List Json) : List Json :=
  events.flatMap (fun e =>
    if e.isType "assistant" then
      e.contentBlocks.filterMap (fun b =>
        if b.isType "tool_use" = true ∧ b.lookup "name" = some (.str "Read")
        then some (Flow.fpOf b) else none)
    else [])

def readBlockNoPath : Json :=
  jobj [("type", .str "tool_use"), ("name", .str "Read"), ("input", jobj [])]

def editBlockNoPath : Json :=
  jobj [("type", .str "tool_use"), ("name", .str "Edit"), ("input", jobj [])]

/-! ## C1 — decoder idempotence -/

/-- C1 counterexample: `loopMetaLine` is well-formed (strict decode
succeeds) and ends in two closing braces, yet the `summarize_session` /
`analyze_flow` decoder strips a brace first and returns `None` instead of
the Event — the claimed idempotence fails on this decoder. -/
theorem decoder_loop_meta_counterexample :
    Json.parse loopMetaLine = some loopMetaEvent ∧
      strEndsWith loopMetaLine "\x7d\x7d" = true ∧
      Summarize.parse_event loopMetaLine = none := by
  refine ⟨by decide, by decide, by decide⟩

/-- C1 (amended): re-decoding an already-valid (re-serialized, hence
stripped and nonempty) Event line returns the same Event under the
`analyze_stuck_points` decoder; the `summarize_session` decoder does so only
when the line does not both end in `\x7d\x7d` and contain `"loop_meta"` —
a well-formed `loop_meta` line ending in two braces is dropped instead. -/
theorem decoder_idempotence_amended (line : String) (e : Json)
    (hstrip : pyStrip line = line) (hne : line ≠ "")
    (hdec : Json.parse line = some e) :
    StuckPoints.parse_event line = some e ∧
      ((strEndsWith line "\x7d\x7d" && strContains line "\"loop_meta\"") = false →
        Summarize.parse_event line = some e) := by
  refine ⟨?_, fun hcond => ?_⟩
  · simp [StuckPoints.parse_event, hstrip, hne, hdec]
  · simp [Summarize.parse_event, hstrip, hne, hcond, hdec]

/-- Witness for C1 at a concrete system line. -/
theorem decoder_idempotence_witness :
    StuckPoints.parse_event "\x7b\"type\": \"system\"\x7d" =
        some (Json.obj (.cons "type" (.str "system") .nil)) ∧
      ((strEndsWith "\x7b\"type\": \"system\"\x7d" "\x7d\x7d" &&
          strContains "\x7b\"type\": \"system\"\x7d" "\"loop_meta\"") = false →
        Summarize.parse_event "\x7b\"type\": \"system\"\x7d" =
          some (Json.obj (.cons "type" (.str "system") .nil))) :=
  decoder_idempotence_amended _ _ (by decide) (by decide) (by decide)

/-! ## C2 — index assignment -/

set_option maxRecDepth 10000 in

/-- C2 counterexample: dropping line 0 leaves one decoded event whose
position among non-dropped lines is 0, yet `summarize_session` records the
raw line number 1 as its `index`. -/
theorem index_assignment_counterexample :
    (Summarize.tool_events gapLines).map (fun te => te.index) = [1] ∧
      (gapLines.filterMap Summarize.parse_event).length = 1 := by
  refine ⟨by decide, by decide⟩

theorem toolEventsOfLine_index {idx : Nat} {e : Json} {te : Summarize.SToolEvent}
    (h : te ∈ Summarize.toolEventsOfLine idx e) : te.index = idx := by
  unfold Summarize.toolEventsOfLine at h
  split at h
  · simp at h
  split at h
  · simp at h
  split at h
  · simp only [List.mem_filterMap] at h
    obtain ⟨b, _, hb⟩ := h
    split at hb
    · cases hb
      rfl
    · cases hb
  · simp at h

theorem toolEventsGo_index_le {i : Nat} {lines : List String}
    {te : Summarize.SToolEvent} (h : te ∈ Summarize.toolEventsGo i lines) :
    i ≤ te.index := by
  induction lines generalizing i with
  | nil => simp [Summarize.toolEventsGo] at h
  | cons l ls ih =>
    simp only [Summarize.toolEventsGo, List.mem_append] at h
    rcases h with h | h
    · rcases hp : Summarize.parse_event l with _ | e' <;> rw [hp] at h
      · simp at h
      · exact (toolEventsOfLine_index h).ge
    · exact Nat.le_of_succ_le (ih h)

theorem toolEventsGo_pairwise (i : Nat) (lines : List String) :
    List.Pairwise (fun a b => a.index ≤ b.index) (Summarize.toolEventsGo i lines) := by
  induction lines generalizing i with
  | nil => simp [Summarize.toolEventsGo]
  | cons l ls ih =>
    simp only [Summarize.toolEventsGo]
    rw [List.pairwise_append]
    refine ⟨?_, ih (i + 1), ?_⟩
    · rcases hp : Summarize.parse_event l with _ | e'
      · simp
      · refine List.pairwise_of_forall_mem_list (fun a ha b hb => ?_)
        rw [toolEventsOfLine_index ha, toolEventsOfLine_index hb]
    · intro a ha b hb
      rcases hp : Summarize.parse_event l with _ | e' <;> rw [hp] at ha
      · simp at ha
      · rw [toolEventsOfLine_index ha]
        exact Nat.le_of_succ_le (toolEventsGo_index_le hb)

/-- C2 (amended): `extract_events` materializes exactly the decoded events
of the non-dropped lines, in order (so the enumerate positions every
detector of `analyze_stuck_points` uses are the gap-free 0-based positions
among decoded lines); `summarize_session` instead records the raw line
number, which is monotone (no reordering) but keeps the gaps of dropped
lines — as the counterexample shows it need not equal the position among
non-dropped lines. -/
theorem index_assignment_amended :
    (∀ lines : List String,
        StuckPoints.extract_events lines = lines.filterMap StuckPoints.parse_event) ∧
      ∀ lines : List String,
        List.Pairwise (fun a b => a.index ≤ b.index) (Summarize.tool_events lines) := by
  constructor
  · intro lines
    induction lines with
    | nil => rfl
    | cons l ls ih =>
      simp only [StuckPoints.extract_events, List.filterMap_cons]
      rcases hp : StuckPoints.parse_event l with _ | e <;> simp [hp, ih]
  · intro lines
    exact toolEventsGo_pairwise 0 lines

/-! ## C3 — tool-result lookup horizon -/

theorem drop_eq_cons_of_getElem? {α : Type} {xs : List α} {k : Nat} {x : α}
    (h : xs[k]? = some x) : xs.drop k = x :: xs.drop (k + 1) := by
  obtain ⟨hlt, hget⟩ := List.getElem?_eq_some_iff.mp h
  rw [List.drop_eq_getElem_cons hlt, hget]

theorem ftrGo_window (events : List Json) (tid : Option Json) :
    ∀ (fuel i : Nat),
      StuckPoints.ftrGo events tid i fuel =
        ((events.drop i).take fuel).findSome? (StuckPoints.resultFromEvent tid) := by
  intro fuel
  induction fuel with
  | zero => intro i; simp [StuckPoints.ftrGo]
  | succ f ih =>
    intro i
    rcases hg : events[i]? with _ | e
    · have hlen : events.length ≤ i := List.getElem?_eq_none_iff.mp hg
      simp [StuckPoints.ftrGo, hg, List.drop_eq_nil_of_le hlen]
    · have hcons : events.drop i = e :: events.drop (i + 1) := drop_eq_cons_of_getElem? hg
      simp only [StuckPoints.ftrGo, hg]
      rw [hcons, List.take_succ_cons, List.findSome?_cons]
      cases hr : StuckPoints.resultFromEvent tid e
      · simp only [hr]
        exact ih (i + 1)
      · simp [hr]

/-- C3: `find_tool_result` searches exactly the half-open window
`[i, i+10)` truncated at transcript end and returns the first match —
hence a sole match at `i+9` is found, while matches only at `i+10` or
beyond (or no match at all in the window) give `None`. -/
theorem find_tool_result_horizon :
    (∀ (events : List Json) (tid : Option Json) (i : Nat),
        StuckPoints.find_tool_result events tid i =
          ((events.drop i).take 10).findSome? (StuckPoints.resultFromEvent tid)) ∧
      (∀ (events : List Json) (tid : Option Json) (i : Nat) (r : ToolResultR)
          (e9 : Json),
        events[i + 9]? = some e9 →
        StuckPoints.resultFromEvent tid e9 = some r →
        (∀ p ∈ (events.drop i).take 9, StuckPoints.resultFromEvent tid p = none) →
        StuckPoints.find_tool_result events tid i = some r) ∧
      ∀ (events : List Json) (tid : Option Json) (i : Nat),
        (∀ (j : Nat) (e : Json), events[j]? = some e →
          StuckPoints.resultFromEvent tid e ≠ none → i + 10 ≤ j) →
        StuckPoints.find_tool_result events tid i = none := by
  refine ⟨fun events tid i => ftrGo_window events tid 10 i, ?_, ?_⟩
  · intro events tid i r e9 h9 hres hbefore
    unfold StuckPoints.find_tool_result
    rw [ftrGo_window]
    rw [show (10 : Nat) = 9 + 1 from rfl, List.take_add, List.findSome?_append]
    rw [List.findSome?_eq_none_iff.mpr hbefore]
    have hd : (events.drop i).drop 9 = events.drop (i + 9) := by
      rw [List.drop_drop, Nat.add_comm]
    rw [hd, drop_eq_cons_of_getElem? h9]
    simp [hres]
  · intro events tid i hbeyond
    unfold StuckPoints.find_tool_result
    rw [ftrGo_window]
    apply List.findSome?_eq_none_iff.mpr
    intro p hp
    obtain ⟨n, hn⟩ := List.getElem?_of_mem hp
    have hn10 : n < 10 := by
      by_contra hge
      have hnone : ((events.drop i).take 10)[n]? = none := by
        apply List.getElem?_eq_none_iff.mpr
        have := List.length_take 10 (events.drop i)
        omega
      rw [hnone] at hn
      cases hn
    have hdn : (events.drop i)[n]? = some p := by
      rw [← List.getElem?_take_of_lt hn10]
      exact hn
    rw [List.getElem?_drop] at hdn
    by_contra hne
    have := hbeyond (i + n) p hdn hne
    omega

/-- Witness for C3: the sole match sits at index `0+9` and is returned. -/
theorem find_tool_result_horizon_witness :
    StuckPoints.find_tool_result horizonEvents (some (.str "t1")) 0 =
      some ⟨.str "ok", .bool false⟩ :=
  find_tool_result_horizon.2.1 horizonEvents (some (.str "t1")) 0
    ⟨.str "ok", .bool false⟩ resultEventT1 (by decide) (by decide) (by decide)

/-! ## C4 / C9 — error→recovery matcher -/

theorem isType_spec {e : Json} {t : String} :
    e.isType t = true ↔ e.lookup "type" = some (.str t) := by
  unfold Json.isType
  rcases e.lookup "type" with _ | v
  · simp
  · cases v <;> simp

theorem isType_unique {e : Json} {t u : String} (ht : e.isType t = true)
    (hne : t ≠ u) : e.isType u = false := by
  cases hu : e.isType u
  · rfl
  · have h1 := isType_spec.mp ht
    have h2 := isType_spec.mp hu
    rw [h1] at h2
    simp only [Option.some.injEq, Json.str.injEq] at h2
    exact absurd h2 hne

theorem not_assistant_of_userError {e : Json} (h : Flow.isUserError e = true) :
    e.isType "assistant" = false := by
  unfold Flow.isUserError at h
  have ht : e.isType "user" = true := (Bool.and_eq_true _ _ |>.mp h).1
  exact isType_unique ht (by decide)

theorem userError_of_assistant {e : Json} (h : e.isType "assistant" = true) :
    Flow.isUserError e = false := by
  unfold Flow.isUserError
  rw [isType_unique h (by decide)]
  rfl

theorem flowGo_append (i : Nat) (s : Flow.RecState) (l1 l2 : List Json) :
    Flow.flowGo i s (l1 ++ l2) =
      Flow.flowGo (i + l1.length) (Flow.flowGo i s l1) l2 := by
  induction l1 generalizing i s with
  | nil => simp [Flow.flowGo]
  | cons e es ih =>
    show Flow.flowGo (i + 1) (Flow.flowStep i e s) (es ++ l2) = _
    rw [ih]
    have harith : i + 1 + es.length = i + (e :: es).length := by
      simp only [List.length_cons]
      omega
    rw [harith]
    rfl

theorem flowAssist_inert {i : Nat} {e : Json} {s : Flow.RecState}
    (hq : e.isType "assistant" = true → Flow.firstQualText e = none) :
    Flow.flowAssist i e s = s := by
  unfold Flow.flowAssist
  split
  next ha =>
    rw [hq ha]
    cases s.pending with
    | none => rfl
    | some k => by_cases hk : k = 0 <;> simp [hk]
  next => rfl

theorem flowStep_inert {i : Nat} {e : Json} {s : Flow.RecState}
    (hue : Flow.isUserError e = false)
    (hq : e.isType "assistant" = true → Flow.firstQualText e = none) :
    Flow.flowStep i e s = s := by
  unfold Flow.flowStep
  rw [hue]
  exact flowAssist_inert hq

theorem flowGo_inert {l : List Json}
    (h : ∀ e ∈ l, Flow.isUserError e = false ∧
      (e.isType "assistant" = true → Flow.firstQualText e = none)) :
    ∀ (i : Nat) (s : Flow.RecState), Flow.flowGo i s l = s := by
  induction l with
  | nil => intro i s; rfl
  | cons e es ih =>
    intro i s
    have h1 := h e (by simp)
    show Flow.flowGo (i + 1) (Flow.flowStep i e s) es = s
    rw [flowStep_inert h1.1 h1.2]
    exact ih (fun e' he' => h e' (by simp [he'])) (i + 1) s

theorem flowStep_error {i : Nat} {e : Json} {s : Flow.RecState}
    (h : Flow.isUserError e = true) :
    Flow.flowStep i e s = { s with pending := some i } := by
  unfold Flow.flowStep Flow.flowAssist
  rw [h]
  simp [not_assistant_of_userError h]

theorem flowStep_recovery {i : Nat} {e : Json} {s : Flow.RecState} {k : Nat}
    {t : String} (hk : s.pending = some k) (hk0 : k ≠ 0)
    (ha : e.isType "assistant" = true) (ht : Flow.firstQualText e = some t) :
    Flow.flowStep i e s = ⟨none, s.recs ++ [(k, i, t)]⟩ := by
  unfold Flow.flowStep Flow.flowAssist
  rw [userError_of_assistant ha]
  simp [ha, hk, hk0, ht]

theorem flowAssist_recs_shape (i : Nat) (e : Json) (s : Flow.RecState) :
    ∃ tail, (Flow.flowAssist i e s).recs = s.recs ++ tail := by
  unfold Flow.flowAssist
  repeat' split
  all_goals first
    | exact ⟨_, rfl⟩
    | exact ⟨[], (List.append_nil _).symm⟩

theorem flowStep_recs_shape (i : Nat) (e : Json) (s : Flow.RecState) :
    ∃ tail, (Flow.flowStep i e s).recs = s.recs ++ tail := by
  unfold Flow.flowStep
  have h1 : (if Flow.isUserError e then { s with pending := some i } else s).recs
      = s.recs := by
    split <;> rfl
  obtain ⟨tail, ht⟩ := flowAssist_recs_shape i e
    (if Flow.isUserError e then { s with pending := some i } else s)
  exact ⟨tail, by rw [ht, h1]⟩

theorem flowStep_recs_mem {p : Nat × Nat × String} {i : Nat} {e : Json}
    {s : Flow.RecState} (h : p ∈ s.recs) : p ∈ (Flow.flowStep i e s).recs := by
  obtain ⟨tail, ht⟩ := flowStep_recs_shape i e s
  rw [ht]
  exact List.mem_append_left _ h

theorem flowGo_recs_mem {p : Nat × Nat × String} :
    ∀ {i : Nat} {s : Flow.RecState} {l : List Json},
      p ∈ s.recs → p ∈ (Flow.flowGo i s l).recs := by
  intro i s l
  induction l generalizing i s with
  | nil => exact id
  | cons e es ih => exact fun h => ih (flowStep_recs_mem h)

set_option maxRecDepth 10000 in

/-- C4 counterexample: the error at index 1 is pending and the assistant
text at index 2 does contain the keyword `fix` (lowercased), yet no pairing
is emitted, because the matcher tests only the first 80 characters of the
text — the claim's "lowercase text contains any of {fix, ...}" fails on the
code. -/
theorem error_recovery_truncation_counterexample :
    strContains (pyLower paddedFixText) "fix" = true ∧
      Flow.isUserError errorUserEvent = true ∧
      (assistantTextEvent paddedFixText).isType "assistant" = true ∧
      Flow.error_recoveries truncationEvents = [] := by
  refine ⟨by decide, by decide, by decide, by decide⟩

set_option maxRecDepth 10000 in

/-- C4 (amended): an `is_error` tool result sets the pending error to its
event index, overwriting any earlier unresolved one; the first subsequent
assistant `Text` block whose first 80 characters, lowercased, contain a
keyword of `{fix, let me, try, install, check}` is recorded as
`(error_index, recovery_index, excerpt)` and clears the pending state —
provided the pending error index is nonzero (the source tests it for
truthiness).  In particular `[Error@1, Error@3, Text("try again")@4]` yields
exactly the pairing `(3,4)` and never `(1,4)`. -/
theorem error_recovery_matcher_amended :
    (∀ (pre mid post : List Json) (errE recE : Json) (t : String),
        0 < pre.length →
        Flow.isUserError errE = true →
        (∀ e ∈ mid, Flow.isUserError e = false ∧
          (e.isType "assistant" = true → Flow.firstQualText e = none)) →
        recE.isType "assistant" = true →
        Flow.firstQualText recE = some t →
        (pre.length, pre.length + 1 + mid.length, t) ∈
          Flow.error_recoveries (pre ++ errE :: (mid ++ recE :: post))) ∧
      Flow.error_recoveries overwriteScenario = [(3, 4, "try again")] := by
  constructor
  · intro pre mid post errE recE t hpre herr hmid ha ht
    unfold Flow.error_recoveries
    rw [flowGo_append]
    simp only [Nat.zero_add]
    rw [show Flow.flowGo pre.length (Flow.flowGo 0 ⟨none, []⟩ pre)
          (errE :: (mid ++ recE :: post)) =
        Flow.flowGo (pre.length + 1)
          (Flow.flowStep pre.length errE (Flow.flowGo 0 ⟨none, []⟩ pre))
          (mid ++ recE :: post) from rfl]
    rw [flowStep_error herr, flowGo_append, flowGo_inert hmid]
    rw [show Flow.flowGo (pre.length + 1 + mid.length)
          { Flow.flowGo 0 ⟨none, []⟩ pre with pending := some pre.length }
          (recE :: post) =
        Flow.flowGo (pre.length + 1 + mid.length + 1)
          (Flow.flowStep (pre.length + 1 + mid.length) recE
            { Flow.flowGo 0 ⟨none, []⟩ pre with pending := some pre.length })
          post from rfl]
    rw [flowStep_recovery rfl (by omega) ha ht]
    apply flowGo_recs_mem
    exact List.mem_append_right _ (by simp)
  · decide

/-- Witness for C4 at `[Filler@0, Error@1, Text("try again")@2]`. -/
theorem error_recovery_matcher_witness :
    (1, 2, "try again") ∈
      Flow.error_recoveries
        [sysEvent, errorUserEvent, assistantTextEvent "try again"] :=
  error_recovery_matcher_amended.1 [sysEvent] [] [] errorUserEvent
    (assistantTextEvent "try again") "try again" (by decide) (by decide)
    (by simp) (by decide) (by decide)

theorem flowAssist_nonzero {i : Nat} {e : Json} {s : Flow.RecState}
    (h : ∀ q ∈ s.recs, q.1 ≠ 0) :
    ∀ q ∈ (Flow.flowAssist i e s).recs, q.1 ≠ 0 := by
  unfold Flow.flowAssist
  repeat' split
  all_goals try exact h
  intro q hq
  rcases List.mem_append.mp hq with h1 | h2
  · exact h q h1
  · simp only [List.mem_singleton] at h2
    subst h2
    assumption

theorem flowStep_nonzero {i : Nat} {e : Json} {s : Flow.RecState}
    (h : ∀ q ∈ s.recs, q.1 ≠ 0) :
    ∀ q ∈ (Flow.flowStep i e s).recs, q.1 ≠ 0 := by
  unfold Flow.flowStep
  apply flowAssist_nonzero
  intro q hq
  apply h
  revert hq
  split <;> exact id

theorem flowGo_nonzero {l : List Json} :
    ∀ {i : Nat} {s : Flow.RecState}, (∀ q ∈ s.recs, q.1 ≠ 0) →
      ∀ q ∈ (Flow.flowGo i s l).recs, q.1 ≠ 0 := by
  induction l with
  | nil => exact fun h => h
  | cons e es ih => exact fun h => ih (flowStep_nonzero h)

/-- C9: the matcher never emits a pairing whose error index is 0 — the
pending index is tested for Python truthiness and `0` is falsy, so an error
at event index 0 can never be paired with any later recovery text. -/
theorem error_recovery_never_zero :
    ∀ (events : List Json) (p : Nat × Nat × String),
      p ∈ Flow.error_recoveries events → p.1 ≠ 0 := by
  intro events p hp
  unfold Flow.error_recoveries at hp
  exact flowGo_nonzero (by simp) p hp

/-- Witness for C9 on a transcript with a recorded pairing. -/
theorem error_recovery_never_zero_witness :
    ((1, 2, "let me fix this") : Nat × Nat × String).1 ≠ 0 :=
  error_recovery_never_zero zeroErrorEvents (1, 2, "let me fix this")
    (by decide)

/-! ## C5 — consecutive-run detector -/

/-- C5: a `tool_events` stream consisting of a single tool invoked exactly
5 times consecutively and nothing else yields exactly one finding, of run
length 5 and with the run's start index (the final open run is flushed at
end of stream); exactly 4 consecutive calls yield no finding. -/
theorem consecutive_run_threshold :
    (∀ (n : Json) (a b c d f : Summarize.SToolEvent),
        a.name = some n → b.name = some n → c.name = some n →
        d.name = some n → f.name = some n →
        Summarize.detect_loops [a, b, c, d, f] = [(some n, 5, a.index)]) ∧
      ∀ (n : Json) (a b c d : Summarize.SToolEvent),
        a.name = some n → b.name = some n → c.name = some n → d.name = some n →
        Summarize.detect_loops [a, b, c, d] = [] := by
  constructor
  · intro n a b c d f ha hb hc hd hf
    simp [Summarize.detect_loops, Summarize.runStep, ha, hb, hc, hd, hf]
  · intro n a b c d ha hb hc hd
    simp [Summarize.detect_loops, Summarize.runStep, ha, hb, hc, hd]

/-- Witness for C5 on five concrete Bash invocations starting at index 2. -/
theorem consecutive_run_threshold_witness :
    Summarize.detect_loops
        [bashToolEvent 2, bashToolEvent 3, bashToolEvent 4, bashToolEvent 5,
         bashToolEvent 6] = [(some (.str "Bash"), 5, 2)] :=
  consecutive_run_threshold.1 (.str "Bash") _ _ _ _ _ rfl rfl rfl rfl rfl

/-! ## C6 — environment-issue classification -/

/-- C6 (amended): for a Bash invocation with a matched result, an `error`
finding requires the content to be a string in addition to a truthy
`is_error` — non-string content is skipped before the `is_error` test, so
it yields no finding at all (not an `error` finding as claimed);
string-content results classify as `error` on truthy `is_error`, else as
`warning` exactly when a phrase matches, else nothing; unmatched
invocations yield nothing. -/
theorem env_issue_classification_amended :
    (∀ (i : Nat) (cmd : Json) (s : String) (err : Json),
        err.isTruthy = true →
        StuckPoints.classifyBashResult i cmd (some ⟨.str s, err⟩) =
          some ⟨i, StuckPoints.cmdSlice cmd, "error", pyTake 200 s⟩) ∧
      (∀ (i : Nat) (cmd : Json) (s : String) (err : Json),
        err.isTruthy = false →
        StuckPoints.classifyBashResult i cmd (some ⟨.str s, err⟩) =
          (if StuckPoints.error_patterns.any (fun p => strContains (pyLower s) p)
           then some ⟨i, StuckPoints.cmdSlice cmd, "warning", pyTake 200 s⟩
           else none)) ∧
      (∀ (i : Nat) (cmd : Json) (c err : Json),
        (∀ s, c ≠ .str s) →
        StuckPoints.classifyBashResult i cmd (some ⟨c, err⟩) = none) ∧
      ∀ (i : Nat) (cmd : Json),
        StuckPoints.classifyBashResult i cmd none = none := by
  refine ⟨?_, ?_, ?_, ?_⟩
  · intro i cmd s err herr
    simp [StuckPoints.classifyBashResult, herr]
  · intro i cmd s err herr
    simp [StuckPoints.classifyBashResult, herr]
  · intro i cmd c err hc
    cases c <;> simp [StuckPoints.classifyBashResult]
    exact absurd rfl (hc _)
  · intro i cmd
    rfl

/-- Witness for C6: truthy `is_error` with string content classifies as an
`error` finding. -/
theorem env_issue_classification_witness :
    StuckPoints.classifyBashResult 0 (.str "ls") (some ⟨.str "boom", .bool true⟩) =
      some ⟨0, StuckPoints.cmdSlice (.str "ls"), "error", pyTake 200 "boom"⟩ :=
  env_issue_classification_amended.1 0 (.str "ls") "boom" (.bool true) (by decide)

set_option maxRecDepth 10000 in

/-- C6 counterexample: a Bash invocation whose matched result has
`is_error = true` but list-valued content produces no finding — the claim
says a finding of kind `error` is emitted regardless of the content's type. -/
theorem env_issue_classification_counterexample :
    StuckPoints.find_tool_result envCexEvents (some (.str "b1")) 0 =
        some ⟨.arr .nil, .bool true⟩ ∧
      StuckPoints.find_environment_issues envCexEvents = [] := by
  refine ⟨by decide, by decide⟩

/-! ## C7 — bash-sequence detector -/

theorem bashScan_append (events : List Json) (l1 : List Json) :
    ∀ (l2 : List Json) (i : Nat) (cur : List StuckPoints.BashEntry),
      StuckPoints.bashScan events i cur (l1 ++ l2) =
        ((StuckPoints.bashScan events i cur l1).1 ++
            (StuckPoints.bashScan events (i + l1.length)
              (StuckPoints.bashScan events i cur l1).2 l2).1,
          (StuckPoints.bashScan events (i + l1.length)
            (StuckPoints.bashScan events i cur l1).2 l2).2) := by
  induction l1 with
  | nil => intro l2 i cur; simp [StuckPoints.bashScan]
  | cons e es ih =>
    intro l2 i cur
    show StuckPoints.bashScan events i cur (e :: (es ++ l2)) = _
    by_cases hb : (StuckPoints.bashToolsOf e).isEmpty
    · simp only [StuckPoints.bashScan, hb, if_true]
      rw [ih]
      have harith : i + 1 + es.length = i + (e :: es).length := by
        simp only [List.length_cons]
        omega
      rw [harith, List.append_assoc]
    · simp only [StuckPoints.bashScan, hb, Bool.false_eq_true, if_false]
      rw [ih]
      have harith : i + 1 + es.length = i + (e :: es).length := by
        simp only [List.length_cons]
        omega
      rw [harith]

theorem bashScan_run (events : List Json) {run : List Json}
    (hrun : ∀ e ∈ run, (StuckPoints.bashToolsOf e).isEmpty = false) :
    ∀ (i : Nat) (cur : List StuckPoints.BashEntry),
      StuckPoints.bashScan events i cur run =
        ([], cur ++ entriesSeq events i run) := by
  induction run with
  | nil => intro i cur; simp [StuckPoints.bashScan, entriesSeq]
  | cons e es ih =>
    intro i cur
    have hb := hrun e (by simp)
    simp only [StuckPoints.bashScan, hb, Bool.false_eq_true, if_false]
    rw [ih (fun e' he' => hrun e' (by simp [he']))]
    rw [entriesSeq, List.append_assoc]

theorem bashScan_sound (events : List Json) :
    ∀ (l : List Json) (i : Nat) (cur sq : List StuckPoints.BashEntry),
      sq ∈ (StuckPoints.bashScan events i cur l).1 → 5 ≤ sq.length := by
  intro l
  induction l with
  | nil => intro i cur sq h; simp [StuckPoints.bashScan] at h
  | cons e es ih =>
    intro i cur sq h
    by_cases hb : (StuckPoints.bashToolsOf e).isEmpty
    · simp only [StuckPoints.bashScan, hb, if_true, List.mem_append] at h
      rcases h with h | h
      · split at h
        · rw [List.mem_singleton] at h
          subst h
          assumption
        · simp at h
      · exact ih (i + 1) [] sq h
    · simp only [StuckPoints.bashScan, hb, Bool.false_eq_true, if_false] at h
      exact ih (i + 1) _ sq h

/-- C7 (amended): each recorded finding has at least 5 entries — the
threshold counts `current_seq` *entries* (one per Bash invocation), not
events — and every maximal run of consecutive Bash-containing events whose
entry list reaches 5 entries is recorded, the trailing open run flushed
under the same rule at end of stream. -/
theorem bash_sequences_amended :
    (∀ (events : List Json) (sq : List StuckPoints.BashEntry),
        sq ∈ StuckPoints.analyze_bash_sequences events → 5 ≤ sq.length) ∧
      ∀ (pre run post : List Json),
        (pre = [] ∨ ∃ p b, pre = p ++ [b] ∧ (StuckPoints.bashToolsOf b).isEmpty = true) →
        (∀ e ∈ run, (StuckPoints.bashToolsOf e).isEmpty = false) →
        (post = [] ∨ ∃ b rest, post = b :: rest ∧ (StuckPoints.bashToolsOf b).isEmpty = true) →
        5 ≤ (entriesSeq (pre ++ (run ++ post)) pre.length run).length →
        entriesSeq (pre ++ (run ++ post)) pre.length run ∈
          StuckPoints.analyze_bash_sequences (pre ++ (run ++ post)) := by
  constructor
  · intro events sq h
    unfold StuckPoints.analyze_bash_sequences at h
    rw [List.mem_append] at h
    rcases h with h | h
    · exact bashScan_sound events events 0 [] sq h
    · split at h
      · rw [List.mem_singleton] at h
        subst h
        assumption
      · simp at h
  · intro pre run post hpre hrun hpost hlen
    have hcur : (StuckPoints.bashScan (pre ++ (run ++ post)) 0 [] pre).2 = [] := by
      rcases hpre with h | ⟨p, b, hp, hb⟩
      · subst h; rfl
      · subst hp
        rw [bashScan_append]
        simp only [StuckPoints.bashScan, hb, if_true]
    unfold StuckPoints.analyze_bash_sequences
    rw [bashScan_append, hcur, Nat.zero_add, bashScan_append, bashScan_run _ hrun]
    simp only [List.nil_append]
    rcases hpost with h | ⟨b, rest, hp, hb⟩
    · subst h
      simp only [StuckPoints.bashScan]
      rw [if_pos hlen]
      simp
    · subst hp
      simp only [StuckPoints.bashScan, hb, if_true]
      rw [if_pos hlen]
      simp

set_option maxRecDepth 100000 in

/-- C7 counterexample: the run spans only 3 events (entry indices 0,0,1,1,2,2)
yet is recorded as a finding, because the threshold counts the 6 invocation
entries, not the events — the claim's "spans 5 or more events" fails. -/
theorem bash_sequences_counterexample :
    (StuckPoints.analyze_bash_sequences shortRunEvents).length = 1 ∧
      ((StuckPoints.analyze_bash_sequences shortRunEvents).headD []).map
          (fun en => en.index) = [0, 0, 1, 1, 2, 2] := by
  refine ⟨by decide, by decide⟩

set_option maxRecDepth 100000 in

/-- Witness for C7: five consecutive single-Bash events flushed at end of
stream are recorded. -/
theorem bash_sequences_witness :
    entriesSeq fiveBashRun 0 fiveBashRun ∈
      StuckPoints.analyze_bash_sequences fiveBashRun := by
  have h := bash_sequences_amended.2 [] fiveBashRun [] (Or.inl rfl)
    (by decide) (Or.inl rfl) (by decide)
  exact h

/-! ## C8 — classifier determinism and tie-break order -/

/-- C8: a Bash command containing both `"git "` and `"bd update"` (and not
matching the still-earlier `orientation` patterns) is classified
`claiming`, the category declared earlier than `git` in the fixed order;
a command matching no category pattern is classified `other`; and the
classifier is a pure function of its input, so two runs on identical input
produce identical assignments (stated as reflexivity — the embedding has no
other state a run could depend on). -/
theorem classifier_first_match :
    (∀ cmd : String, strContains cmd "git " = true →
        strContains cmd "bd update" = true →
        strContains cmd "bd ready" = false →
        strContains cmd "bd show" = false →
        strContains cmd "bd list" = false →
        Efficiency.classifyTarget cmd = "claiming") ∧
      ((Efficiency.tool_categories.map Prod.fst).indexOf "claiming" <
        (Efficiency.tool_categories.map Prod.fst).indexOf "git") ∧
      (∀ cmd : String,
        (∀ c ∈ Efficiency.tool_categories, ∀ p ∈ c.2, strContains cmd p = false) →
        Efficiency.classifyTarget cmd = "other") ∧
      ∀ events : List Json,
        Efficiency.assignments events = Efficiency.assignments events := by
  refine ⟨?_, by decide, ?_, fun events => rfl⟩
  · intro cmd h1 h2 h3 h4 h5
    simp [Efficiency.classifyTarget, Efficiency.tool_categories, List.find?,
      h1, h2, h3, h4, h5]
  · intro cmd h
    have hnone : Efficiency.tool_categories.find?
        (fun c => c.2.any (fun p => strContains cmd p)) = none := by
      apply List.find?_eq_none.mpr
      intro c hc
      simp only [List.any_eq_true, not_exists, not_and, Bool.not_eq_true]
      intro p hp
      exact h c hc p hp
    simp [Efficiency.classifyTarget, hnone]

/-- Witness for C8 at a concrete command containing both substrings. -/
theorem classifier_first_match_witness :
    Efficiency.classifyTarget "git add -A && bd update tk-1" = "claiming" :=
  classifier_first_match.1 "git add -A && bd update tk-1" rfl rfl rfl rfl rfl

/-! ## C10 — read-before-edit with missing file paths -/

theorem toList_ofList (l : List Json) : (JsonList.ofList l).toList = l := by
  induction l with
  | nil => rfl
  | cons j js ih => simp [JsonList.ofList, JsonList.toList, ih]

theorem contentBlocks_assistantOf (bs : List Json) :
    (assistantOf bs).contentBlocks = bs := by
  show (JsonList.ofList bs).toList = bs
  exact toList_ofList bs

theorem isType_assistantOf (bs : List Json) :
    (assistantOf bs).isType "assistant" = true := rfl

theorem rbeBlockStep_reads (i : Nat) (s : Flow.RbeState) (b : Json) :
    (Flow.rbeBlockStep i s b).reads =
      s.reads ++
        (if b.isType "tool_use" = true ∧ b.lookup "name" = some (.str "Read")
         then [Flow.fpOf b] else []) := by
  unfold Flow.rbeBlockStep
  by_cases ht : b.isType "tool_use"
  · by_cases hr : b.lookup "name" = some (.str "Read")
    · simp [ht, hr]
    · by_cases he : b.lookup "name" = some (.str "Edit") <;> simp [ht, hr, he]
  · simp [ht]

theorem rbeBlocks_reads (i : Nat) (bs : List Json) :
    ∀ s : Flow.RbeState,
      (bs.foldl (Flow.rbeBlockStep i) s).reads =
        s.reads ++ bs.filterMap (fun b =>
          if b.isType "tool_use" = true ∧ b.lookup "name" = some (.str "Read")
          then some (Flow.fpOf b) else none) := by
  induction bs with
  | nil => intro s; simp
  | cons b bs ih =>
    intro s
    rw [List.foldl_cons, ih, List.filterMap_cons]
    rw [rbeBlockStep_reads]
    by_cases hc : b.isType "tool_use" = true ∧ b.lookup "name" = some (.str "Read") <;>
      simp [hc]

theorem rbeEventStep_reads (i : Nat) (s : Flow.RbeState) (e : Json) :
    (Flow.rbeEventStep i s e).reads = s.reads ++ readPaths [e] := by
  unfold Flow.rbeEventStep readPaths
  by_cases ha : e.isType "assistant"
  · simp only [ha, if_true, List.flatMap_cons, List.flatMap_nil, List.append_nil]
    exact rbeBlocks_reads i _ s
  · simp [ha]

theorem readPaths_cons (e : Json) (es : List Json) :
    readPaths (e :: es) = readPaths [e] ++ readPaths es := by
  unfold readPaths
  simp

theorem rbeGo_reads (l : List Json) :
    ∀ (i : Nat) (s : Flow.RbeState),
      (Flow.rbeGo i s l).reads = s.reads ++ readPaths l := by
  induction l with
  | nil => intro i s; simp [Flow.rbeGo, readPaths]
  | cons e es ih =>
    intro i s
    show (Flow.rbeGo (i + 1) (Flow.rbeEventStep i s e) es).reads = _
    rw [ih, rbeEventStep_reads, readPaths_cons]
    simp [readPaths]

theorem rbeGo_append (l1 : List Json) :
    ∀ (l2 : List Json) (i : Nat) (s : Flow.RbeState),
      Flow.rbeGo i s (l1 ++ l2) =
        Flow.rbeGo (i + l1.length) (Flow.rbeGo i s l1) l2 := by
  induction l1 with
  | nil => intro l2 i s; simp [Flow.rbeGo]
  | cons e es ih =>
    intro l2 i s
    show Flow.rbeGo (i + 1) (Flow.rbeEventStep i s e) (es ++ l2) = _
    rw [ih]
    have harith : i + 1 + es.length = i + (e :: es).length := by
      simp only [List.length_cons]
      omega
    rw [harith]
    rfl

theorem rbeBlockStep_edits_shape (i : Nat) (s : Flow.RbeState) (b : Json) :
    ∃ tail, (Flow.rbeBlockStep i s b).edits = s.edits ++ tail := by
  unfold Flow.rbeBlockStep
  repeat' split
  all_goals first
    | exact ⟨_, rfl⟩
    | exact ⟨[], (List.append_nil _).symm⟩

theorem rbeBlocks_edits_shape (i : Nat) (bs : List Json) :
    ∀ s : Flow.RbeState,
      ∃ tail, (bs.foldl (Flow.rbeBlockStep i) s).edits = s.edits ++ tail := by
  induction bs with
  | nil => intro s; exact ⟨[], by simp⟩
  | cons b bs ih =>
    intro s
    obtain ⟨t1, h1⟩ := rbeBlockStep_edits_shape i s b
    obtain ⟨t2, h2⟩ := ih (Flow.rbeBlockStep i s b)
    exact ⟨t1 ++ t2, by rw [List.foldl_cons, h2, h1, List.append_assoc]⟩

theorem rbeEventStep_edits_shape (i : Nat) (s : Flow.RbeState) (e : Json) :
    ∃ tail, (Flow.rbeEventStep i s e).edits = s.edits ++ tail := by
  unfold Flow.rbeEventStep
  split
  · exact rbeBlocks_edits_shape i _ s
  · exact ⟨[], by simp⟩

theorem rbeGo_edits_mem {p : Nat × Json × Bool} (l : List Json) :
    ∀ {i : Nat} {s : Flow.RbeState},
      p ∈ s.edits → p ∈ (Flow.rbeGo i s l).edits := by
  induction l with
  | nil => intro i s h; exact h
  | cons e es ih =>
    intro i s h
    apply ih
    obtain ⟨tail, ht⟩ := rbeEventStep_edits_shape i s e
    rw [ht]
    exact List.mem_append_left _ h

theorem scalarEq_emptyStr (r : Json) :
    Flow.scalarEq (Json.str "") r = true ↔ r = Json.str "" := by
  cases r <;> simp [Flow.scalarEq, eq_comm]

/-- C10: an `Edit` invocation whose input lacks a `file_path` is recorded
with path `""` (the `inp.get('file_path', '')` default) and its
`had_prior_read` flag is the set-membership of `""` — true iff some earlier
`Read` invocation's `file_path` value was also missing or empty. -/
theorem read_before_edit_missing_path :
    (∀ (E1 E2 : List Json) (eb : Json),
        eb.isType "tool_use" = true →
        eb.lookup "name" = some (.str "Edit") →
        (eb.getD "input" (.obj .nil)).lookup "file_path" = none →
        (E1.length, Json.str "",
            (readPaths E1).any (fun r => Flow.scalarEq (Json.str "") r)) ∈
          Flow.rbe_edits (E1 ++ assistantOf [eb] :: E2)) ∧
      (∀ paths : List Json,
        (paths.any (fun r => Flow.scalarEq (Json.str "") r) = true ↔
          Json.str "" ∈ paths)) ∧
      ∀ rb : Json,
        Flow.fpOf rb = Json.str "" ↔
          ((rb.getD "input" (.obj .nil)).lookup "file_path" = none ∨
           (rb.getD "input" (.obj .nil)).lookup "file_path" = some (Json.str "")) := by
  refine ⟨?_, ?_, ?_⟩
  · intro E1 E2 eb htool hname hfp
    have hfp' : Flow.fpOf eb = Json.str "" := by
      have hdef : Flow.fpOf eb =
          ((eb.getD "input" (.obj .nil)).lookup "file_path").getD (.str "") := rfl
      rw [hdef, hfp]
      rfl
    have hnotread : ¬(eb.lookup "name" = some (Json.str "Read")) := by
      rw [hname]
      simp
    unfold Flow.rbe_edits
    rw [rbeGo_append]
    simp only [Nat.zero_add]
    rw [show Flow.rbeGo E1.length (Flow.rbeGo 0 ⟨[], []⟩ E1) (assistantOf [eb] :: E2) =
        Flow.rbeGo (E1.length + 1)
          (Flow.rbeEventStep E1.length (Flow.rbeGo 0 ⟨[], []⟩ E1) (assistantOf [eb]))
          E2 from rfl]
    apply rbeGo_edits_mem
    unfold Flow.rbeEventStep
    rw [if_pos (isType_assistantOf [eb]), contentBlocks_assistantOf]
    rw [List.foldl_cons, List.foldl_nil]
    unfold Flow.rbeBlockStep
    rw [if_pos htool, if_neg hnotread, if_pos hname, hfp']
    have hreads : (Flow.rbeGo 0 (⟨[], []⟩ : Flow.RbeState) E1).reads = readPaths E1 := by
      rw [rbeGo_reads]
      rfl
    rw [hreads]
    exact List.mem_append_right _ (by simp)
  · intro paths
    rw [List.any_eq_true]
    constructor
    · rintro ⟨r, hr, he⟩
      rw [(scalarEq_emptyStr r).mp he] at hr
      exact hr
    · intro h
      exact ⟨Json.str "", h, by simp [Flow.scalarEq]⟩
  · intro rb
    have hdef : Flow.fpOf rb =
        ((rb.getD "input" (.obj .nil)).lookup "file_path").getD (.str "") := rfl
    rw [hdef]
    rcases hl : (rb.getD "input" (.obj .nil)).lookup "file_path" with _ | v
    · simp
    · simp

set_option maxRecDepth 10000 in

/-- Witness for C10: a pathless `Read` then a pathless `Edit` — the edit is
recorded as covered. -/
theorem read_before_edit_missing_path_witness :
    (1, Json.str "", true) ∈
      Flow.rbe_edits
        ([assistantOf [readBlockNoPath]] ++ assistantOf [editBlockNoPath] :: []) := by
  have h := read_before_edit_missing_path.1 [assistantOf [readBlockNoPath]] []
    editBlockNoPath (by decide) (by decide) (by decide)
  exact h
